import Mathlib

/-!
Shallow embedding of the `simplebot` dispatch core
(`src/simplebot/__init__.py`, class `SimpleBot`).

Texts are modelled as lists of characters (Python `str`).  Callback
invocations may raise; a call's outcome is modelled by `CallRes`: either
the callback `throws` (raises an exception, always caught and logged by
the dispatcher) or returns `ok` with a value.  Since a single dispatch
fixes the message object, each listener/filter/handler callback is
modelled as a function of the text (respectively argument string /
processed flag) it receives.

Observable effects of a dispatch — calls on the transport collaborator
(`account.delete_messages`, `account.mark_seen_messages`) and the
invocation of each registered callback — are recorded in an event trace.
-/

set_option autoImplicit false

namespace SimpleBot

/-- Python strings, modelled as lists of characters. -/
abbrev Text := List Char

/-- Outcome of invoking a plugin callback: it raises, or returns a value. -/
inductive CallRes (β : Type) where
  | throws : CallRes β
  | ok : β → CallRes β
deriving DecidableEq

/-- A detected-message/command listener: receives the current text, returns
a replacement text or `None` (modelled `Option Text`), or raises. -/
abbrev DListener := Text → CallRes (Option Text)

/-- A processed-message/command listener: receives the processed flag. -/
abbrev PListener := Bool → CallRes Unit

/-- A message filter: receives the text, returns whether it acted. -/
abbrev MsgFilter := Text → CallRes Bool

/-- A command handler callback: receives the argument string
(`self.commands[cmd][-1]` in the source is the callback stored last in the
command's entry; we model the callback directly). -/
abbrev Handler := Text → CallRes Unit

/-- Observable events of one dispatch, in order of occurrence.
Listener and filter invocations are identified by their position in the
registry's iteration order; handler invocations by command name and the
argument string passed to the callback. -/
inductive Event where
  | deleteMessages : Event
  | markSeen : Event
  | detectedCall : Nat → Event
  | filterCall : Nat → Event
  | handlerCall : Text → Text → Event
  | processedCall : Nat → Event
deriving DecidableEq

/-- An inbound item.  `hasChatVersion` models
`msg.get_mime_headers()['chat-version'] is not None`; `user_agent` is the
mutable origin tag (`msg.user_agent`). -/
structure Msg where
  hasChatVersion : Bool
  text : Text
  user_agent : Option Text
deriving DecidableEq

/-- The registries consulted by dispatch: the four listener sets
`_mdl, _mpl, _cdl, _cpl` (iteration order of one registry snapshot is
modelled by list order), the filter sequence `self.filters` and the
command mapping `self.commands` (iterated in registration order; both
collections live on the `DeltaBot` base class, which is not part of this
repository's sources — per the spec, filters form an ordered sequence and
handlers a name-to-callback mapping scanned in registration order). -/
structure Bot where
  mdl : List DListener
  mpl : List PListener
  cdl : List DListener
  cpl : List PListener
  filters : List MsgFilter
  commands : List (Text × Handler)

/-- Result of one dispatch: the event trace, the processed flag
(`none` when dispatch ended before filter/handler resolution, i.e. the
item was rejected and deleted), and the final state of the item. -/
structure DispatchResult where
  trace : List Event
  processed : Option Bool
  msg : Msg
deriving DecidableEq

/-- Prepend an event to the trace component of a pair. -/
def consEv {α : Type} (e : Event) (p : List Event × α) : List Event × α :=
  (e :: p.1, p.2)

/-- The detected-listener chain (lines 170-178 resp. 218-226 of the
source): each listener is invoked with the current text; a raised
exception is caught and the chain continues with the text unchanged; a
`None` return stops the chain with rejection (`none`); otherwise the
returned text replaces the current text.  Events number the listeners
starting at `i`. -/
def runDetected (ls : List DListener) (text : Text) (i : Nat) :
    List Event × Option Text :=
  match ls with
  | [] => ([], some text)
  | l :: rest =>
    match l text with
    | CallRes.throws => consEv (Event.detectedCall i) (runDetected rest text (i + 1))
    | CallRes.ok none => ([Event.detectedCall i], none)
    | CallRes.ok (some t) => consEv (Event.detectedCall i) (runDetected rest t (i + 1))

/-- The boolean a filter invocation contributes to `processed`: a raised
exception is caught and contributes `false` (lines 180-187). -/
def filterVal : CallRes Bool → Bool
  | CallRes.throws => false
  | CallRes.ok b => b

/-- OR a boolean into the processed component of a pair. -/
def orSnd (b : Bool) (p : List Event × Bool) : List Event × Bool :=
  (p.1, b || p.2)

/-- Filter resolution (lines 180-187): every filter is invoked with the
final text; `processed` accumulates the OR of the contributed booleans. -/
def runFilters (fs : List MsgFilter) (text : Text) (i : Nat) :
    List Event × Bool :=
  match fs with
  | [] => ([], false)
  | f :: rest =>
    consEv (Event.filterCall i) (orSnd (filterVal (f text)) (runFilters rest text (i + 1)))

/-- The processed-listener chain (lines 192-196 resp. 244-248): every
listener is invoked with the processed flag; results and exceptions are
discarded. -/
def runProcessed (ls : List PListener) (p : Bool) (i : Nat) : List Event :=
  match ls with
  | [] => []
  | _ :: rest => Event.processedCall i :: runProcessed rest p (i + 1)

/-- Modelled from the spec: `get_args` is defined on the `DeltaBot` base
class in the `deltabot` module, which is not among this repository's
sources.  Per spec §4.4 a command name matches when it is a prefix of the
text followed by whitespace or end-of-string, and the handler receives the
remaining argument text; per the §8 scenario, text `"/z /ping"` yields the
marker-stripped text `"/ping"` and handler `"/ping"` on `"/ping"` receives
the empty argument string, so surrounding whitespace is stripped from the
remainder. -/
def get_args (cmd text : Text) : Option Text :=
  if cmd.isPrefixOf text then
    match text.drop cmd.length with
    | [] => some []
    | c :: cs => if c.isWhitespace then some ((c :: cs).dropWhile Char.isWhitespace |>.reverse.dropWhile Char.isWhitespace |>.reverse) else none
  else none

/-- Handler resolution (lines 228-239): commands are scanned in
registration order; a non-matching command is skipped; the first matching
command's callback is invoked with the argument string.  If the callback
returns normally, `processed = True` and the scan stops (`break`); if it
raises, the exception is caught and — `processed = True` and `break` both
sitting after the call inside the `try` block — the scan continues with
the next command.  If the loop completes without `break`, the `for/else`
clause sets `processed = False`. -/
def runCommands (cs : List (Text × Handler)) (text : Text) :
    List Event × Bool :=
  match cs with
  | [] => ([], false)
  | (cmd, cb) :: rest =>
    match get_args cmd text with
    | none => runCommands rest text
    | some args =>
      match cb args with
      | CallRes.ok _ => ([Event.handlerCall cmd args], true)
      | CallRes.throws => consEv (Event.handlerCall cmd args) (runCommands rest text)

/-- Stages 2-4 of the message pipeline, entered with the detected-listener
suffix `ls`, current text and next listener index: run the detected chain;
on rejection delete the item and stop; otherwise run every filter on the
final text, run the processed listeners, and mark the item seen. -/
def msgPipeline (bot : Bot) (ls : List DListener) (text : Text) (i : Nat)
    (msg : Msg) : DispatchResult :=
  match runDetected ls text i with
  | (es, none) =>
    { trace := es ++ [Event.deleteMessages], processed := none, msg := msg }
  | (es, some t) =>
    let fp := runFilters bot.filters t 0
    let ps := runProcessed bot.mpl fp.2 0
    { trace := es ++ fp.1 ++ ps ++ [Event.markSeen],
      processed := some fp.2, msg := msg }

/-- `SimpleBot.on_message` (lines 158-198): if the item lacks the
chat-protocol header it is deleted and dispatch returns at once;
otherwise the pipeline runs on the item's text. -/
def on_message (bot : Bot) (msg : Msg) : DispatchResult :=
  if msg.hasChatVersion then msgPipeline bot bot.mdl msg.text 0 msg
  else { trace := [Event.deleteMessages], processed := none, msg := msg }

/-- The alternate-output marker `'/z'` (line 211). -/
def zMarker : Text := ['/', 'z']

/-- The default origin tag `'unknow'` (line 213). -/
def unknowTag : Text := ['u', 'n', 'k', 'n', 'o', 'w']

/-- The alternate origin tag `'zhv'` (line 215). -/
def zhvTag : Text := ['z', 'h', 'v']

/-- The marker step of the command pipeline (lines 211-216): if the text
matches the `'/z'` marker, the origin tag is set to `'zhv'` and the text
is replaced by the marker-stripped remainder; otherwise the tag is set to
`'unknow'` and the text is unchanged. -/
def applyMarker (msg : Msg) (text : Text) : Msg × Text :=
  match get_args zMarker text with
  | none => ({ msg with user_agent := some unknowTag }, text)
  | some real => ({ msg with user_agent := some zhvTag }, real)

/-- Stages 2-4 of the command pipeline, entered with the detected-listener
suffix and the (marker-stripped) text: run the detected chain; on
rejection delete the item and stop; otherwise resolve a handler, run the
processed listeners, and mark the item seen. -/
def cmdPipeline (bot : Bot) (ls : List DListener) (text : Text) (i : Nat)
    (msg : Msg) : DispatchResult :=
  match runDetected ls text i with
  | (es, none) =>
    { trace := es ++ [Event.deleteMessages], processed := none, msg := msg }
  | (es, some t) =>
    let cp := runCommands bot.commands t
    let ps := runProcessed bot.cpl cp.2 0
    { trace := es ++ cp.1 ++ ps ++ [Event.markSeen],
      processed := some cp.2, msg := msg }

/-- `SimpleBot.on_command` (lines 200-250): the intake guard mirrors
`on_message`; past it, the marker step runs, then the command pipeline on
the possibly marker-stripped text. -/
def on_command (bot : Bot) (msg : Msg) : DispatchResult :=
  if msg.hasChatVersion then
    let mt := applyMarker msg msg.text
    cmdPipeline bot bot.cdl mt.2 0 mt.1
  else { trace := [Event.deleteMessages], processed := none, msg := msg }

/-- A loaded plugin, reduced to what the lifecycle functions observe: an
identity and the outcome of invoking each lifecycle hook. -/
structure PluginInst where
  id : Nat
  activateRes : CallRes Unit
  deactivateRes : CallRes Unit

/-- `SimpleBot.deactivate_plugins` (lines 264-269): each plugin's
deactivation hook is invoked in load order; an exception is caught and
logged and the remaining plugins are still deactivated.  The result is
the list of plugins whose hook was invoked, in invocation order. -/
def deactivate_plugins (ps : List PluginInst) : List Nat :=
  match ps with
  | [] => []
  | p :: rest =>
    match p.deactivateRes with
    | CallRes.throws => p.id :: deactivate_plugins rest
    | CallRes.ok _ => p.id :: deactivate_plugins rest

/-- `SimpleBot.activate_plugins` (lines 260-262): each plugin's activation
hook is invoked in load order; an exception propagates to the caller
(modelled `none`).  On success the result is the list of activated
plugins in invocation order. -/
def activate_plugins (ps : List PluginInst) : Option (List Nat) :=
  match ps with
  | [] => some []
  | p :: rest =>
    match p.activateRes with
    | CallRes.throws => none
    | CallRes.ok _ => (activate_plugins rest).map (fun l => p.id :: l)

/-- Python `set.add` (lines 131-147: the four listener registries are
`set()`s): adding an element already present leaves the set unchanged. -/
def setAdd {α : Type} [DecidableEq α] (s : List α) (x : α) : List α :=
  if x ∈ s then s else x :: s

/-- Python `set.discard` (lines 137-153): removes the element if present,
does nothing otherwise. -/
def setDiscard {α : Type} [DecidableEq α] (s : List α) (x : α) : List α :=
  s.erase x

/-- Whether an event is a callback invocation (as opposed to a transport
call). -/
def isCallEvent : Event → Bool
  | Event.deleteMessages => false
  | Event.markSeen => false
  | _ => true

/-- The trace left by a run of commands that all either fail to match the
text or raise when invoked: one `handlerCall` per matching command. -/
def preTrace (cs : List (Text × Handler)) (text : Text) : List Event :=
  cs.filterMap (fun p => (get_args p.1 text).map (fun a => Event.handlerCall p.1 a))

/-- Prepend events to the trace of a dispatch result. -/
def prependTrace (es : List Event) (r : DispatchResult) : DispatchResult :=
  { r with trace := es ++ r.trace }

/-- The command name of the §8 scenario. -/
def pingCmd : Text := ['/', 'p', 'i', 'n', 'g']

/-- The marker-stripped text of the §8 scenario. -/
def pingText : Text := ['/', 'p', 'i', 'n', 'g']

/-- A registry with only the handler of the §8 scenario. -/
def pingBot : Bot :=
  { mdl := [], mpl := [], cdl := [], cpl := [], filters := [],
    commands := [(pingCmd, fun _ => CallRes.ok ())] }

/-- The inbound command of the §8 scenario: text `'/z /ping'`. -/
def pingMsg : Msg :=
  { hasChatVersion := true, text := ['/', 'z', ' ', '/', 'p', 'i', 'n', 'g'],
    user_agent := none }

/-- The command name of the handler-raises counterexample. -/
def slashA : Text := ['/', 'a']

/-- A registry whose only handler matches `'/a'` and always raises. -/
def slashAThrowBot : Bot :=
  { mdl := [], mpl := [], cdl := [], cpl := [], filters := [],
    commands := [(slashA, fun _ => CallRes.throws)] }

/-- An inbound command with text `'/a'`. -/
def slashAMsg : Msg :=
  { hasChatVersion := true, text := slashA, user_agent := none }

/-- Empty registries. -/
def emptyBot : Bot :=
  { mdl := [], mpl := [], cdl := [], cpl := [], filters := [], commands := [] }

/-- An inbound item lacking the chat-protocol header. -/
def noHdrMsg : Msg := { hasChatVersion := false, text := [], user_agent := none }

/-- An ordinary inbound message. -/
def helloMsg : Msg :=
  { hasChatVersion := true, text := ['h', 'i'], user_agent := none }

/-- A detected listener that rejects every item. -/
def rejectListener : DListener := fun _ => CallRes.ok none

/-- A registry whose only detected-message listener rejects. -/
def rejBot : Bot :=
  { mdl := [rejectListener], mpl := [], cdl := [], cpl := [], filters := [],
    commands := [] }

/-- A detected listener that always raises. -/
def throwListener : DListener := fun _ => CallRes.throws

/-- A registry whose only detected-message listener raises. -/
def thrBot : Bot :=
  { mdl := [throwListener], mpl := [], cdl := [], cpl := [], filters := [],
    commands := [] }

/-- A filter that always acts. -/
def trueFilt : MsgFilter := fun _ => CallRes.ok true

/-- A filter that always raises. -/
def throwFilt : MsgFilter := fun _ => CallRes.throws

/-- A registry with a raising filter followed by an acting filter. -/
def filtBot : Bot :=
  { mdl := [], mpl := [], cdl := [], cpl := [], filters := [throwFilt, trueFilt],
    commands := [] }

/-- A registry whose only detected-command listener rejects. -/
def rejCmdBot : Bot :=
  { mdl := [], mpl := [], cdl := [rejectListener], cpl := [], filters := [],
    commands := [] }

/-- A plugin whose deactivation hook raises. -/
def plugA : PluginInst :=
  { id := 0, activateRes := CallRes.ok (), deactivateRes := CallRes.throws }

/-- A plugin whose hooks succeed. -/
def plugB : PluginInst :=
  { id := 1, activateRes := CallRes.ok (), deactivateRes := CallRes.ok () }

/-- Splitting the detected-listener chain: if the leading listeners pass,
leaving text `t`, the whole chain is the leading trace followed by the run
of the remaining listeners from `t`. -/
theorem runDetected_append_some (xs ys : List DListener) (text : Text) (i : Nat)
    (es : List Event) (t : Text) (h : runDetected xs text i = (es, some t)) :
    runDetected (xs ++ ys) text i =
      (es ++ (runDetected ys t (i + xs.length)).1,
        (runDetected ys t (i + xs.length)).2) := by
  induction xs generalizing text i es with
  | nil =>
    simp only [runDetected, Prod.mk.injEq, Option.some.injEq] at h
    obtain ⟨h1, h2⟩ := h
    subst h1
    subst h2
    simp
  | cons l xs ih =>
    simp only [runDetected] at h
    cases hl : l text with
    | throws =>
      rw [hl] at h
      simp only [consEv, Prod.mk.injEq] at h
      obtain ⟨h1, h2⟩ := h
      subst h1
      have hrec : runDetected xs text (i + 1) =
          ((runDetected xs text (i + 1)).1, some t) := by
        rw [← h2]
      have hmain := ih text (i + 1) (runDetected xs text (i + 1)).1 hrec
      have hidx : i + 1 + xs.length = i + (xs.length + 1) := by omega
      rw [hidx] at hmain
      simp [List.cons_append, runDetected, hl, consEv, hmain]
    | ok o =>
      cases o with
      | none =>
        rw [hl] at h
        simp at h
      | some t2 =>
        rw [hl] at h
        simp only [consEv, Prod.mk.injEq] at h
        obtain ⟨h1, h2⟩ := h
        subst h1
        have hrec : runDetected xs t2 (i + 1) =
            ((runDetected xs t2 (i + 1)).1, some t) := by
          rw [← h2]
        have hmain := ih t2 (i + 1) (runDetected xs t2 (i + 1)).1 hrec
        have hidx : i + 1 + xs.length = i + (xs.length + 1) := by omega
        rw [hidx] at hmain
        simp [List.cons_append, runDetected, hl, consEv, hmain]

/-- Every event of the detected-listener chain is a listener invocation. -/
theorem runDetected_calls (ls : List DListener) (text : Text) (i : Nat) :
    ∀ e ∈ (runDetected ls text i).1, isCallEvent e = true := by
  induction ls generalizing text i with
  | nil => simp [runDetected]
  | cons l ls ih =>
    intro e he
    simp only [runDetected] at he
    cases hl : l text with
    | throws =>
      rw [hl] at he
      simp only [consEv, List.mem_cons] at he
      rcases he with he | he
      · subst he; rfl
      · exact ih text (i + 1) e he
    | ok o =>
      cases o with
      | none =>
        rw [hl] at he
        simp only [List.mem_singleton] at he
        subst he; rfl
      | some t =>
        rw [hl] at he
        simp only [consEv, List.mem_cons] at he
        rcases he with he | he
        · subst he; rfl
        · exact ih t (i + 1) e he

/-- Every event of filter resolution is a filter invocation. -/
theorem runFilters_calls (fs : List MsgFilter) (text : Text) (i : Nat) :
    ∀ e ∈ (runFilters fs text i).1, isCallEvent e = true := by
  induction fs generalizing i with
  | nil => simp [runFilters]
  | cons f fs ih =>
    intro e he
    simp only [runFilters, consEv, orSnd, List.mem_cons] at he
    rcases he with he | he
    · subst he; rfl
    · exact ih (i + 1) e he

/-- Every event of the processed-listener chain is a listener invocation. -/
theorem runProcessed_calls (ls : List PListener) (p : Bool) (i : Nat) :
    ∀ e ∈ runProcessed ls p i, isCallEvent e = true := by
  induction ls generalizing i with
  | nil => simp [runProcessed]
  | cons l ls ih =>
    intro e he
    simp only [runProcessed, List.mem_cons] at he
    rcases he with he | he
    · subst he; rfl
    · exact ih (i + 1) e he

/-- Every event of handler resolution is a handler invocation. -/
theorem runCommands_calls (cs : List (Text × Handler)) (text : Text) :
    ∀ e ∈ (runCommands cs text).1, isCallEvent e = true := by
  induction cs with
  | nil => simp [runCommands]
  | cons c cs ih =>
    intro e he
    cases hg : get_args c.1 text with
    | none =>
      simp only [runCommands, hg] at he
      exact ih e he
    | some args =>
      cases hc : c.2 args with
      | throws =>
        simp only [runCommands, hg, hc, consEv, List.mem_cons] at he
        rcases he with he | he
        · subst he; rfl
        · exact ih e he
      | ok u =>
        simp only [runCommands, hg, hc, List.mem_singleton] at he
        subst he; rfl

/-- A transport event does not occur in a list of callback invocations. -/
theorem not_mem_of_calls {A : List Event} (h : ∀ e ∈ A, isCallEvent e = true)
    (e : Event) (he : isCallEvent e = false) : e ∉ A := by
  intro hm
  have := h e hm
  rw [he] at this
  exact Bool.noConfusion this

/-- The processed flag of filter resolution is the OR of the values the
filters contribute (a raising filter contributing false). -/
theorem runFilters_processed (fs : List MsgFilter) (text : Text) (i : Nat) :
    (runFilters fs text i).2 = fs.any (fun f => filterVal (f text)) := by
  induction fs generalizing i with
  | nil => simp [runFilters]
  | cons f fs ih => simp [runFilters, consEv, orSnd, ih (i + 1)]

/-- Every filter position contributes an invocation event. -/
theorem runFilters_mem (fs : List MsgFilter) (text : Text) (i : Nat) :
    ∀ k, k < fs.length → Event.filterCall (i + k) ∈ (runFilters fs text i).1 := by
  induction fs generalizing i with
  | nil => simp
  | cons f fs ih =>
    intro k hk
    cases k with
    | zero => simp [runFilters, consEv, orSnd]
    | succ k =>
      have hik : i + (k + 1) = (i + 1) + k := by omega
      rw [hik]
      simp only [runFilters, consEv, orSnd, List.mem_cons]
      right
      exact ih (i + 1) k (by simpa using hk)

/-- Handler resolution stopping at the first command whose callback
completes normally: commands before it either do not match the text or
raise when invoked; the scan records one invocation per matching command
and ends at the first success with `processed = true`, never reaching the
commands after it. -/
theorem runCommands_first_success (pre post : List (Text × Handler))
    (cmd : Text) (cb : Handler) (args text : Text)
    (hpre : ∀ p ∈ pre, ∀ a, get_args p.1 text = some a → p.2 a = CallRes.throws)
    (hargs : get_args cmd text = some args)
    (hok : cb args = CallRes.ok ()) :
    runCommands (pre ++ (cmd, cb) :: post) text =
      (preTrace pre text ++ [Event.handlerCall cmd args], true) := by
  induction pre with
  | nil =>
    simp [runCommands, hargs, hok, preTrace]
  | cons p pre ih =>
    obtain ⟨pc, pf⟩ := p
    have hp := hpre (pc, pf) (List.mem_cons_self _ _)
    have hrest : ∀ q ∈ pre, ∀ a, get_args q.1 text = some a → q.2 a = CallRes.throws :=
      fun q hq => hpre q (List.mem_cons_of_mem _ hq)
    cases hg : get_args pc text with
    | none =>
      simp [List.cons_append, runCommands, hg, ih hrest, preTrace]
    | some a =>
      have hthrows : pf a = CallRes.throws := hp a hg
      simp [List.cons_append, runCommands, hg, hthrows, consEv, ih hrest, preTrace]

/-- The final item of the message pipeline is the item it was entered
with: `on_message` never mutates the message. -/
theorem msgPipeline_msg (bot : Bot) (ls : List DListener) (text : Text)
    (i : Nat) (m : Msg) : (msgPipeline bot ls text i m).msg = m := by
  rcases h : runDetected ls text i with ⟨es, r⟩
  cases r <;> simp [msgPipeline, h]

/-- The final item of the command pipeline is the item it was entered
with: past the marker step, `on_command` does not mutate the message. -/
theorem cmdPipeline_msg (bot : Bot) (ls : List DListener) (text : Text)
    (i : Nat) (m : Msg) : (cmdPipeline bot ls text i m).msg = m := by
  rcases h : runDetected ls text i with ⟨es, r⟩
  cases r <;> simp [cmdPipeline, h]

/-- Claim C4: for every inbound item lacking the required chat-protocol
metadata, both dispatch pipelines delete the item and return immediately:
the whole trace is the single transport delete, so zero listeners,
filters, handlers or processed-listeners are invoked and the item is not
marked seen. -/
theorem C4_intake_rejection (bot : Bot) (msg : Msg)
    (hv : msg.hasChatVersion = false) :
    on_message bot msg =
      { trace := [Event.deleteMessages], processed := none, msg := msg }
    ∧ on_command bot msg =
      { trace := [Event.deleteMessages], processed := none, msg := msg } := by
  constructor <;> simp [on_message, on_command, hv]

/-- Witness for C4: a header-less item against empty registries. -/
theorem C4_witness :
    on_message emptyBot noHdrMsg =
      { trace := [Event.deleteMessages], processed := none, msg := noHdrMsg }
    ∧ on_command emptyBot noHdrMsg =
      { trace := [Event.deleteMessages], processed := none, msg := noHdrMsg } :=
  C4_intake_rejection emptyBot noHdrMsg rfl

/-- Claim C2: when a detected-message listener returns null for the
current text, dispatch stops at that listener: the whole trace is the
leading listeners' invocations, the rejecting listener's invocation, and
the transport delete — so no subsequent detected-listener, filter or
processed-listener is invoked and the item is never marked seen. -/
theorem C2_listener_rejection (bot : Bot) (msg : Msg)
    (pre post : List DListener) (l : DListener) (es : List Event) (t : Text)
    (hv : msg.hasChatVersion = true)
    (hmdl : bot.mdl = pre ++ l :: post)
    (hpre : runDetected pre msg.text 0 = (es, some t))
    (hl : l t = CallRes.ok none) :
    on_message bot msg =
      { trace := es ++ [Event.detectedCall pre.length, Event.deleteMessages],
        processed := none, msg := msg } := by
  have h2 : runDetected (l :: post) t (0 + pre.length) =
      ([Event.detectedCall (0 + pre.length)], none) := by
    simp [runDetected, hl]
  have h3 := runDetected_append_some pre (l :: post) msg.text 0 es t hpre
  rw [h2] at h3
  simp only [Nat.zero_add] at h3
  simp [on_message, hv, msgPipeline, hmdl, h3]

/-- Witness for C2: a rejecting listener as the only registered
detected-message listener. -/
theorem C2_witness :
    on_message rejBot helloMsg =
      { trace := [Event.detectedCall 0, Event.deleteMessages],
        processed := none, msg := helloMsg } :=
  C2_listener_rejection rejBot helloMsg [] [] rejectListener [] helloMsg.text
    rfl rfl rfl rfl

/-- Claim C5: when a detected-message listener raises, the exception is
caught and the dispatch continues exactly as the pipeline entered at the
remaining listeners with the text unchanged from before the faulty
invocation — so the remaining listeners and all later stages still run. -/
theorem C5_listener_fault_isolation (bot : Bot) (msg : Msg)
    (pre post : List DListener) (l : DListener) (es : List Event) (t : Text)
    (hv : msg.hasChatVersion = true)
    (hmdl : bot.mdl = pre ++ l :: post)
    (hpre : runDetected pre msg.text 0 = (es, some t))
    (hl : l t = CallRes.throws) :
    on_message bot msg =
      prependTrace (es ++ [Event.detectedCall pre.length])
        (msgPipeline bot post t (pre.length + 1) msg) := by
  have h2 : runDetected (l :: post) t (0 + pre.length) =
      (Event.detectedCall (0 + pre.length) ::
          (runDetected post t (0 + pre.length + 1)).1,
        (runDetected post t (0 + pre.length + 1)).2) := by
    simp [runDetected, hl, consEv]
  have h3 := runDetected_append_some pre (l :: post) msg.text 0 es t hpre
  rw [h2] at h3
  simp only [Nat.zero_add] at h3
  rcases hr : runDetected post t (pre.length + 1) with ⟨es2, r⟩
  rw [hr] at h3
  cases r with
  | none =>
    simp [on_message, hv, hmdl, msgPipeline, h3, hr, prependTrace]
  | some t2 =>
    simp [on_message, hv, hmdl, msgPipeline, h3, hr, prependTrace]

/-- Witness for C5: a raising listener as the only registered
detected-message listener. -/
theorem C5_witness :
    on_message thrBot helloMsg =
      prependTrace [Event.detectedCall 0]
        (msgPipeline thrBot [] helloMsg.text 1 helloMsg) :=
  C5_listener_fault_isolation thrBot helloMsg [] [] throwListener []
    helloMsg.text rfl rfl rfl rfl

/-- Claim C3: when message dispatch reaches filter resolution, every
registered filter is invoked (no first-match short-circuit) and the
processed flag is the OR of the values the filters contribute, a raising
filter contributing false without stopping the remaining filters. -/
theorem C3_filter_fanout (bot : Bot) (msg : Msg) (es : List Event) (t : Text)
    (k : Nat)
    (hv : msg.hasChatVersion = true)
    (hdet : runDetected bot.mdl msg.text 0 = (es, some t))
    (hk : k < bot.filters.length) :
    (on_message bot msg).processed =
      some (bot.filters.any (fun f => filterVal (f t)))
    ∧ Event.filterCall k ∈ (on_message bot msg).trace := by
  simp only [on_message, hv, if_true, msgPipeline, hdet]
  constructor
  · simp [runFilters_processed]
  · have hm := runFilters_mem bot.filters t 0 k hk
    simp only [Nat.zero_add] at hm
    exact List.mem_append_left _ (List.mem_append_left _ (List.mem_append_right _ hm))

/-- Witness for C3: a raising filter followed by an acting filter; both
are invoked and the outcome is processed. -/
theorem C3_witness :
    (on_message filtBot helloMsg).processed = some true
    ∧ Event.filterCall 1 ∈ (on_message filtBot helloMsg).trace :=
  ⟨(C3_filter_fanout filtBot helloMsg [] helloMsg.text 1 rfl rfl
      (by decide)).1.trans (by decide),
    (C3_filter_fanout filtBot helloMsg [] helloMsg.text 1 rfl rfl
      (by decide)).2⟩

/-- Claim C1 counterexample: a single registered command whose callback
raises.  Dispatching its exact name finds and invokes the handler, yet
the outcome is not processed — in the source, `processed = True` and
`break` sit after the callback invocation inside the `try` block, so a
raising callback reaches neither and the loop falls through to the
`for/else` clause, which sets `processed = False`.  The claim states that
a raising callback still yields `processed = true`. -/
theorem C1_counterexample :
    Event.handlerCall slashA [] ∈ (on_command slashAThrowBot slashAMsg).trace
    ∧ (on_command slashAThrowBot slashAMsg).processed = some false := by
  decide

/-- Claim C1 (amended): handler resolution is first-successful-match.
Commands are scanned in registration order; commands before the first
match whose callback completes normally are either non-matching (skipped)
or matching with a raising callback (invoked, the exception caught and
logged, the scan continuing); at the first normally-completing match the
scan stops — commands after it are never inspected — and the dispatch is
processed. -/
theorem C1_first_match (bot : Bot) (msg : Msg) (es : List Event) (t : Text)
    (pre post : List (Text × Handler)) (cmd : Text) (cb : Handler)
    (args : Text)
    (hv : msg.hasChatVersion = true)
    (hdet : runDetected bot.cdl (applyMarker msg msg.text).2 0 = (es, some t))
    (hcmds : bot.commands = pre ++ (cmd, cb) :: post)
    (hpre : ∀ p ∈ pre, ∀ a, get_args p.1 t = some a → p.2 a = CallRes.throws)
    (hargs : get_args cmd t = some args)
    (hok : cb args = CallRes.ok ()) :
    (on_command bot msg).processed = some true
    ∧ (on_command bot msg).trace =
        es ++ preTrace pre t ++ [Event.handlerCall cmd args]
          ++ runProcessed bot.cpl true 0 ++ [Event.markSeen] := by
  have hrc := runCommands_first_success pre post cmd cb args t hpre hargs hok
  rw [← hcmds] at hrc
  simp only [on_command, hv, if_true, cmdPipeline, hdet, hrc]
  constructor <;> simp

/-- Witness for the amended C1: the scenario registry with the sole
handler `'/ping'`, no leading commands. -/
theorem C1_witness :
    (on_command pingBot pingMsg).processed = some true
    ∧ (on_command pingBot pingMsg).trace =
        [Event.handlerCall pingCmd [], Event.markSeen] :=
  C1_first_match pingBot pingMsg [] pingText [] [] pingCmd
    (fun _ => CallRes.ok ()) [] rfl (by decide) rfl (by simp) (by decide) rfl

/-- Claim C6: past the intake guard of command dispatch, the raw text is
inspected for the alternate-output marker: absent, the origin tag is set
to the default value and the pipeline continues on the unchanged text;
present, the tag is set to the alternate value and the pipeline continues
on the marker-stripped text.  In particular, dispatching text `'/z /ping'`
with handler `'/ping'` registered sets the alternate tag, invokes the
handler with the empty argument string, and is processed. -/
theorem C6_marker_step (bot : Bot) (msg : Msg) (r : Text)
    (hv : msg.hasChatVersion = true) :
    ((get_args zMarker msg.text = none →
      on_command bot msg =
        cmdPipeline bot bot.cdl msg.text 0 { msg with user_agent := some unknowTag })
    ∧ (get_args zMarker msg.text = some r →
      on_command bot msg =
        cmdPipeline bot bot.cdl r 0 { msg with user_agent := some zhvTag }))
    ∧ ((on_command pingBot pingMsg).msg.user_agent = some zhvTag
      ∧ Event.handlerCall pingCmd [] ∈ (on_command pingBot pingMsg).trace
      ∧ (on_command pingBot pingMsg).processed = some true) := by
  refine ⟨⟨?_, ?_⟩, by decide⟩
  · intro h
    simp [on_command, hv, applyMarker, h]
  · intro h
    simp [on_command, hv, applyMarker, h]

/-- Witness for C6: the scenario dispatch, marker present. -/
theorem C6_witness :
    on_command pingBot pingMsg =
      cmdPipeline pingBot pingBot.cdl pingText 0
        { pingMsg with user_agent := some zhvTag } :=
  (C6_marker_step pingBot pingMsg pingText rfl).1.2 (by decide)

/-- Claim C7: plugins are deactivated in load order — every plugin's
deactivation hook is invoked, in order, even when earlier hooks raise
(the exception is caught and logged) — and, when every activation
succeeds, activation happens in the same order, so deactivation order
equals activation order (not reversed). -/
theorem C7_deactivation_order (ps : List PluginInst) :
    deactivate_plugins ps = ps.map PluginInst.id
    ∧ ((∀ p ∈ ps, p.activateRes = CallRes.ok ()) →
      activate_plugins ps = some (ps.map PluginInst.id)) := by
  constructor
  · induction ps with
    | nil => rfl
    | cons p ps ih =>
      cases h : p.deactivateRes <;> simp [deactivate_plugins, h, ih]
  · induction ps with
    | nil => intro _; rfl
    | cons p ps ih =>
      intro hall
      have hp := hall p (List.mem_cons_self _ _)
      have ihr := ih (fun q hq => hall q (List.mem_cons_of_mem _ hq))
      simp [activate_plugins, hp, ihr]

/-- Witness for C7: two plugins, the first with a raising deactivation
hook; both are deactivated, in load order. -/
theorem C7_witness :
    deactivate_plugins [plugA, plugB] = [0, 1]
    ∧ activate_plugins [plugA, plugB] = some [0, 1] :=
  ⟨(C7_deactivation_order [plugA, plugB]).1,
    (C7_deactivation_order [plugA, plugB]).2 (by decide)⟩

/-- Claim C8: the listener registries are Python sets — adding a callback
already present leaves the registry unchanged (hence dispatch, a function
of the registry state, behaves identically), and discarding an absent
callback is a no-op. -/
theorem C8_registry_idempotent {α : Type} [DecidableEq α] (s : List α)
    (x : α) :
    setAdd (setAdd s x) x = setAdd s x
    ∧ (x ∉ s → setDiscard s x = s) := by
  constructor
  · by_cases h : x ∈ s
    · simp [setAdd, h]
    · simp [setAdd, h]
  · intro h
    simp [setDiscard, List.erase_of_not_mem h]

/-- Witness for C8: a concrete registry of identifiers. -/
theorem C8_witness :
    setAdd (setAdd [1, 2] 3) 3 = setAdd [1, 2] 3
    ∧ setDiscard [1, 2] 3 = [1, 2] :=
  ⟨(C8_registry_idempotent [1, 2] 3).1,
    (C8_registry_idempotent [1, 2] 3).2 (by decide)⟩

/-- Mark-seen behaviour of the message pipeline: if it yields a processed
flag (the chain did not reject), the trace ends in exactly one mark-seen
and contains no delete; if it yields none (rejection), the trace contains
a delete and no mark-seen. -/
theorem msgPipeline_marks (bot : Bot) (ls : List DListener) (text : Text)
    (i : Nat) (m : Msg) :
    ((msgPipeline bot ls text i m).processed.isSome = true →
      ((msgPipeline bot ls text i m).trace.count Event.markSeen = 1
        ∧ (msgPipeline bot ls text i m).trace.getLast? = some Event.markSeen
        ∧ Event.deleteMessages ∉ (msgPipeline bot ls text i m).trace))
    ∧ ((msgPipeline bot ls text i m).processed = none →
      (Event.markSeen ∉ (msgPipeline bot ls text i m).trace
        ∧ Event.deleteMessages ∈ (msgPipeline bot ls text i m).trace)) := by
  rcases hd : runDetected ls text i with ⟨es, r⟩
  have hes : ∀ e ∈ es, isCallEvent e = true := by
    have h := runDetected_calls ls text i
    rw [hd] at h
    simpa using h
  cases r with
  | none =>
    constructor
    · intro hcontra
      simp [msgPipeline, hd] at hcontra
    · intro _
      simp only [msgPipeline, hd]
      constructor
      · intro hm
        rcases List.mem_append.mp hm with hm | hm
        · exact not_mem_of_calls hes Event.markSeen rfl hm
        · simp at hm
      · exact List.mem_append_right es (by simp)
  | some t =>
    have hf := runFilters_calls bot.filters t 0
    have hp := runProcessed_calls bot.mpl (runFilters bot.filters t 0).2 0
    constructor
    · intro _
      simp only [msgPipeline, hd]
      have h1 : Event.markSeen ∉ es := not_mem_of_calls hes Event.markSeen rfl
      have h2 : Event.markSeen ∉ (runFilters bot.filters t 0).1 :=
        not_mem_of_calls hf Event.markSeen rfl
      have h3 : Event.markSeen ∉
          runProcessed bot.mpl (runFilters bot.filters t 0).2 0 :=
        not_mem_of_calls hp Event.markSeen rfl
      refine ⟨?_, ?_, ?_⟩
      · simp [List.count_append, List.count_eq_zero.mpr h1,
          List.count_eq_zero.mpr h2, List.count_eq_zero.mpr h3]
      · exact List.getLast?_concat _
      · intro hm
        rcases List.mem_append.mp hm with hm | hm
        · rcases List.mem_append.mp hm with hm | hm
          · rcases List.mem_append.mp hm with hm | hm
            · exact not_mem_of_calls hes Event.deleteMessages rfl hm
            · exact not_mem_of_calls hf Event.deleteMessages rfl hm
          · exact not_mem_of_calls hp Event.deleteMessages rfl hm
        · simp at hm
    · intro hcontra
      simp [msgPipeline, hd] at hcontra

/-- Mark-seen behaviour of the command pipeline: mirrors the message
pipeline. -/
theorem cmdPipeline_marks (bot : Bot) (ls : List DListener) (text : Text)
    (i : Nat) (m : Msg) :
    ((cmdPipeline bot ls text i m).processed.isSome = true →
      ((cmdPipeline bot ls text i m).trace.count Event.markSeen = 1
        ∧ (cmdPipeline bot ls text i m).trace.getLast? = some Event.markSeen
        ∧ Event.deleteMessages ∉ (cmdPipeline bot ls text i m).trace))
    ∧ ((cmdPipeline bot ls text i m).processed = none →
      (Event.markSeen ∉ (cmdPipeline bot ls text i m).trace
        ∧ Event.deleteMessages ∈ (cmdPipeline bot ls text i m).trace)) := by
  rcases hd : runDetected ls text i with ⟨es, r⟩
  have hes : ∀ e ∈ es, isCallEvent e = true := by
    have h := runDetected_calls ls text i
    rw [hd] at h
    simpa using h
  cases r with
  | none =>
    constructor
    · intro hcontra
      simp [cmdPipeline, hd] at hcontra
    · intro _
      simp only [cmdPipeline, hd]
      constructor
      · intro hm
        rcases List.mem_append.mp hm with hm | hm
        · exact not_mem_of_calls hes Event.markSeen rfl hm
        · simp at hm
      · exact List.mem_append_right es (by simp)
  | some t =>
    have hf := runCommands_calls bot.commands t
    have hp := runProcessed_calls bot.cpl (runCommands bot.commands t).2 0
    constructor
    · intro _
      simp only [cmdPipeline, hd]
      have h1 : Event.markSeen ∉ es := not_mem_of_calls hes Event.markSeen rfl
      have h2 : Event.markSeen ∉ (runCommands bot.commands t).1 :=
        not_mem_of_calls hf Event.markSeen rfl
      have h3 : Event.markSeen ∉
          runProcessed bot.cpl (runCommands bot.commands t).2 0 :=
        not_mem_of_calls hp Event.markSeen rfl
      refine ⟨?_, ?_, ?_⟩
      · simp [List.count_append, List.count_eq_zero.mpr h1,
          List.count_eq_zero.mpr h2, List.count_eq_zero.mpr h3]
      · exact List.getLast?_concat _
      · intro hm
        rcases List.mem_append.mp hm with hm | hm
        · rcases List.mem_append.mp hm with hm | hm
          · rcases List.mem_append.mp hm with hm | hm
            · exact not_mem_of_calls hes Event.deleteMessages rfl hm
            · exact not_mem_of_calls hf Event.deleteMessages rfl hm
          · exact not_mem_of_calls hp Event.deleteMessages rfl hm
        · simp at hm
    · intro hcontra
      simp [cmdPipeline, hd] at hcontra

/-- Claim C9: every dispatch (message or command) that passes the intake
guard and is not rejected by a detected listener (it yields a processed
flag) marks the item seen exactly once, at the very end of the trace, and
never deletes it; every dispatch discarded in stage 1 or 2 (its processed
flag is absent) deletes the item and never marks it seen. -/
theorem C9_mark_seen (bot : Bot) (msg : Msg) :
    ((on_message bot msg).processed.isSome = true →
      ((on_message bot msg).trace.count Event.markSeen = 1
        ∧ (on_message bot msg).trace.getLast? = some Event.markSeen
        ∧ Event.deleteMessages ∉ (on_message bot msg).trace))
    ∧ ((on_message bot msg).processed = none →
      (Event.markSeen ∉ (on_message bot msg).trace
        ∧ Event.deleteMessages ∈ (on_message bot msg).trace))
    ∧ ((on_command bot msg).processed.isSome = true →
      ((on_command bot msg).trace.count Event.markSeen = 1
        ∧ (on_command bot msg).trace.getLast? = some Event.markSeen
        ∧ Event.deleteMessages ∉ (on_command bot msg).trace))
    ∧ ((on_command bot msg).processed = none →
      (Event.markSeen ∉ (on_command bot msg).trace
        ∧ Event.deleteMessages ∈ (on_command bot msg).trace)) := by
  by_cases hv : msg.hasChatVersion
  · have hm := msgPipeline_marks bot bot.mdl msg.text 0 msg
    have hc := cmdPipeline_marks bot bot.cdl (applyMarker msg msg.text).2 0
      (applyMarker msg msg.text).1
    simp only [on_message, on_command, hv, if_true]
    exact ⟨hm.1, hm.2, hc.1, hc.2⟩
  · simp only [on_message, on_command, hv, if_false]
    refine ⟨by simp, ?_, by simp, ?_⟩ <;>
      exact fun _ => ⟨by simp, by simp⟩

/-- Witness for C9: a completed message dispatch, a rejected message
dispatch, a completed command dispatch, and a guard-rejected command
dispatch. -/
theorem C9_witness :
    ((on_message emptyBot helloMsg).trace.count Event.markSeen = 1
      ∧ (on_message emptyBot helloMsg).trace.getLast? = some Event.markSeen
      ∧ Event.deleteMessages ∉ (on_message emptyBot helloMsg).trace)
    ∧ (Event.markSeen ∉ (on_message rejBot helloMsg).trace
      ∧ Event.deleteMessages ∈ (on_message rejBot helloMsg).trace)
    ∧ ((on_command pingBot pingMsg).trace.count Event.markSeen = 1
      ∧ (on_command pingBot pingMsg).trace.getLast? = some Event.markSeen
      ∧ Event.deleteMessages ∉ (on_command pingBot pingMsg).trace)
    ∧ (Event.markSeen ∉ (on_command emptyBot noHdrMsg).trace
      ∧ Event.deleteMessages ∈ (on_command emptyBot noHdrMsg).trace) :=
  ⟨(C9_mark_seen emptyBot helloMsg).1 (by decide),
    (C9_mark_seen rejBot helloMsg).2.1 (by decide),
    (C9_mark_seen pingBot pingMsg).2.2.1 (by decide),
    (C9_mark_seen emptyBot noHdrMsg).2.2.2 (by decide)⟩

/-- Claim C10: past the intake guard, command dispatch unconditionally
overwrites the item's origin tag — to the alternate value when the marker
is present, the default value otherwise — independently of every
registry, and therefore before any detected-command listener runs and
also when the command is later rejected by a listener or matches no
handler; message dispatch never modifies the item, in particular not its
origin tag. -/
theorem C10_origin_tag (bot bot2 : Bot) (msg m : Msg)
    (hv : msg.hasChatVersion = true) :
    (on_command bot msg).msg.user_agent =
      some (if (get_args zMarker msg.text).isSome then zhvTag else unknowTag)
    ∧ (on_command bot2 msg).msg.user_agent = (on_command bot msg).msg.user_agent
    ∧ (on_message bot2 m).msg = m := by
  have key : ∀ b : Bot, (on_command b msg).msg.user_agent =
      some (if (get_args zMarker msg.text).isSome then zhvTag else unknowTag) := by
    intro b
    rcases hz : get_args zMarker msg.text with _ | r <;>
      simp [on_command, hv, applyMarker, hz, cmdPipeline_msg]
  refine ⟨key bot, (key bot2).trans (key bot).symm, ?_⟩
  by_cases hm : m.hasChatVersion <;> simp [on_message, hm, msgPipeline_msg]

/-- Witness for C10: the scenario command against the scenario registry
and against a registry whose detected-command listener rejects — the tag
is overwritten identically; a message dispatch leaves the item intact. -/
theorem C10_witness :
    (on_command pingBot pingMsg).msg.user_agent = some zhvTag
    ∧ (on_command rejCmdBot pingMsg).msg.user_agent =
        (on_command pingBot pingMsg).msg.user_agent
    ∧ (on_message emptyBot helloMsg).msg = helloMsg :=
  C10_origin_tag pingBot rejCmdBot pingMsg helloMsg rfl

end SimpleBot
